import Mathlib

/-!
Shallow embedding of the Casino wallet ledger core:
`apps/wallet/services.py` (WalletService.place_bet, settle_bet, deposit,
initiate_withdrawal), `apps/wallet/models.py` (Wallet, WalletTransaction,
WalletLock) and `core/redis/locks.py` (DistributedLock).

Modelling conventions:
* Monetary fields are Django `DecimalField(max_digits=20, decimal_places=8)`;
  all operations use only exact addition and subtraction, so amounts are
  embedded as `Int` (exact, no rounding occurs in the source).
* UUIDs (idempotency keys, reference ids) are embedded as `Nat`; `uuid.uuid4()`
  calls, which produce fresh unique values, are embedded as explicit `Nat`
  parameters supplied by the environment.
* Time (`timezone.now()`) is an explicit `now : Nat` parameter (seconds);
  `timedelta(minutes=5)` is 300 and `timedelta(hours=24)` is 86400.
* The Redis idempotency cache (`django.core.cache`) is an association list;
  `cache.set` prepends, `cache.get` finds the most recent entry.
* The state tracks a single wallet: every claim is per-wallet, and the
  source's row-level `select_for_update` serialises all mutations of one
  wallet row, so a sequence of operations against one wallet is the unit
  of reasoning.
* `DistributedLock.__enter__` calls `self.acquire()` and discards its Bool
  result, so the body of the `with` block runs whether or not the Redis lock
  was obtained; `place_bet` therefore takes the acquisition outcome as an
  (unused) `lockAcquired : Bool` parameter.
-/

namespace Casino

/-- Transaction types, from `WalletTransaction.TRANSACTION_TYPES`. -/
inductive TxnType where
  | BET
  | WIN
  | DEPOSIT
  | WITHDRAWAL
  | BONUS
  | ADMIN_ADJUSTMENT
  | REFUND
deriving DecidableEq, Repr

/-- Reservation lock types, from `WalletLock.LOCK_TYPES`. -/
inductive LockType where
  | BET_PENDING
  | WITHDRAWAL_PENDING
  | DISPUTE
deriving DecidableEq, Repr

/-- The mutable wallet row (`Wallet` model): `balance`, `locked_balance`
(both `DecimalField`, embedded as `Int`) and the optimistic-locking
`version` counter. -/
structure Wallet where
  balance : Int
  locked_balance : Int
  version : Nat
deriving DecidableEq, Repr

/-- An immutable ledger row (`WalletTransaction` model); the owning wallet
foreign key is implicit (single-wallet state). -/
structure WalletTransaction where
  type : TxnType
  amount : Int
  balance_before : Int
  balance_after : Int
  reference_id : Nat
  idempotency_key : Nat
deriving DecidableEq, Repr

/-- A reservation row (`WalletLock` model). -/
structure WalletLock where
  amount : Int
  lock_type : LockType
  reference_id : Nat
  expires_at : Nat
deriving DecidableEq, Repr

/-- The persistent state seen by the wallet service: the wallet row, the
ledger rows (in creation order), the reservation rows (in creation order)
and the Redis idempotency cache. -/
structure WalletState where
  wallet : Wallet
  transactions : List WalletTransaction
  locks : List WalletLock
  cache : List (Nat × WalletTransaction)
deriving DecidableEq, Repr

/-- Failure outcomes of the service operations.
`insufficientFunds` is `InsufficientFundsException`; `doesNotExist` and
`multipleObjectsReturned` are the Django exceptions raised by
`WalletLock.objects.get(...)` in `settle_bet`.  `lockTimeout` is the
`LockTimeout` failure named by the specification; the embedding shows the
source never produces it. -/
inductive ServiceError where
  | insufficientFunds
  | doesNotExist
  | multipleObjectsReturned
  | lockTimeout
deriving DecidableEq, Repr

/-- Is the operation result a success (did not raise)? -/
def exOk {ε α : Type} : Except ε α → Bool
  | Except.ok _ => true
  | Except.error _ => false

/-- Redis cache read (`cache.get`). -/
def cacheGet (c : List (Nat × WalletTransaction)) (k : Nat) :
    Option WalletTransaction :=
  (c.find? (fun p => p.1 == k)).map (fun p => p.2)

/-- Redis cache write (`cache.set`); the TTL argument of the source is not
modelled (no claim depends on cache expiry). -/
def cacheSet (c : List (Nat × WalletTransaction)) (k : Nat)
    (v : WalletTransaction) : List (Nat × WalletTransaction) :=
  (k, v) :: c

/-- Ledger lookup by idempotency key
(`WalletTransaction.objects.filter(idempotency_key=...)`). -/
def findTxn (ts : List WalletTransaction) (k : Nat) :
    Option WalletTransaction :=
  ts.find? (fun t => t.idempotency_key == k)

/-- The predicate of `WalletLock.objects.get(reference_id=game_round_id,
lock_type='BET_PENDING')`. -/
def isBetPendingFor (rid : Nat) (l : WalletLock) : Bool :=
  l.reference_id == rid && l.lock_type == LockType.BET_PENDING

/-- The reservation rows matching `settle_bet`'s lookup. -/
def betPendingLocks (ls : List WalletLock) (rid : Nat) : List WalletLock :=
  ls.filter (isBetPendingFor rid)

/-- `WalletService.place_bet(user, amount, game_round_id, idempotency_key)`.
The `lockAcquired` parameter is the Bool returned by
`DistributedLock.acquire` inside `__enter__`; the source discards it, so it
is unused here, mirroring the code. -/
def place_bet (st : WalletState) (amount : Int)
    (game_round_id idempotency_key now : Nat) (lockAcquired : Bool) :
    Except ServiceError (WalletTransaction × WalletState) :=
  match cacheGet st.cache idempotency_key with
  | some cached => Except.ok (cached, st)
  | none =>
    match findTxn st.transactions idempotency_key with
    | some existing =>
        Except.ok (existing,
          { st with cache := cacheSet st.cache idempotency_key existing })
    | none =>
        let available := st.wallet.balance - st.wallet.locked_balance
        if available < amount then
          Except.error ServiceError.insufficientFunds
        else
          let balance_before := st.wallet.balance
          let wallet' : Wallet :=
            { balance := st.wallet.balance - amount
              locked_balance := st.wallet.locked_balance + amount
              version := st.wallet.version + 1 }
          let txn : WalletTransaction :=
            { type := TxnType.BET
              amount := -amount
              balance_before := balance_before
              balance_after := wallet'.balance
              reference_id := game_round_id
              idempotency_key := idempotency_key }
          let lk : WalletLock :=
            { amount := amount
              lock_type := LockType.BET_PENDING
              reference_id := game_round_id
              expires_at := now + 300 }
          Except.ok (txn,
            { wallet := wallet'
              transactions := st.transactions ++ [txn]
              locks := st.locks ++ [lk]
              cache := cacheSet st.cache idempotency_key txn })

/-- `WalletService.settle_bet(game_round_id, win_amount)`.  The Django
`.get(...)` requires exactly one matching row; `lock.delete()` removes that
unique matching row, embedded as filtering out the matching rows (equal,
since exactly one matches on the success path).  `fresh_key` embeds the
`uuid.uuid4()` idempotency key of the WIN transaction. -/
def settle_bet (st : WalletState) (game_round_id : Nat) (win_amount : Int)
    (fresh_key : Nat) : Except ServiceError (Wallet × WalletState) :=
  match betPendingLocks st.locks game_round_id with
  | [] => Except.error ServiceError.doesNotExist
  | [lk] =>
      let wallet1 : Wallet :=
        { st.wallet with
            locked_balance := st.wallet.locked_balance - lk.amount }
      let remaining :=
        st.locks.filter (fun l => !(isBetPendingFor game_round_id l))
      if 0 < win_amount then
        let wallet2 : Wallet :=
          { wallet1 with
              balance := wallet1.balance + win_amount
              version := wallet1.version + 1 }
        let txn : WalletTransaction :=
          { type := TxnType.WIN
            amount := win_amount
            balance_before := wallet1.balance
            balance_after := wallet2.balance
            reference_id := game_round_id
            idempotency_key := fresh_key }
        Except.ok (wallet2,
          { wallet := wallet2
            transactions := st.transactions ++ [txn]
            locks := remaining
            cache := st.cache })
      else
        Except.ok (wallet1,
          { wallet := wallet1
            transactions := st.transactions
            locks := remaining
            cache := st.cache })
  | _ :: _ :: _ => Except.error ServiceError.multipleObjectsReturned

/-- `WalletService.deposit(user, amount, ...)`; never fails.  `payment_ref`
embeds the deposit's `reference_id`, `fresh_key` the `uuid.uuid4()`
idempotency key. -/
def deposit (st : WalletState) (amount : Int) (payment_ref fresh_key : Nat) :
    WalletTransaction × WalletState :=
  let balance_before := st.wallet.balance
  let wallet' : Wallet :=
    { st.wallet with
        balance := st.wallet.balance + amount
        version := st.wallet.version + 1 }
  let txn : WalletTransaction :=
    { type := TxnType.DEPOSIT
      amount := amount
      balance_before := balance_before
      balance_after := wallet'.balance
      reference_id := payment_ref
      idempotency_key := fresh_key }
  (txn,
    { st with
        wallet := wallet'
        transactions := st.transactions ++ [txn] })

/-- `WalletService.initiate_withdrawal(user, amount, ...)`.  `fresh_ref`
embeds the `uuid.uuid4()` reference id of the reservation. -/
def initiate_withdrawal (st : WalletState) (amount : Int)
    (fresh_ref now : Nat) : Except ServiceError (WalletLock × WalletState) :=
  let available := st.wallet.balance - st.wallet.locked_balance
  if available < amount then
    Except.error ServiceError.insufficientFunds
  else
    let wallet' : Wallet :=
      { st.wallet with
          locked_balance := st.wallet.locked_balance + amount
          version := st.wallet.version + 1 }
    let lk : WalletLock :=
      { amount := amount
        lock_type := LockType.WITHDRAWAL_PENDING
        reference_id := fresh_ref
        expires_at := now + 86400 }
    Except.ok (lk,
      { st with
          wallet := wallet'
          locks := st.locks ++ [lk] })

/-- One wallet-service invocation, with the environment-chosen fresh values
(uuid4 results, clock readings, distributed-lock outcome) as fields. -/
inductive Op where
  | placeBet (amount : Int) (game_round_id idempotency_key now : Nat)
      (lockAcquired : Bool)
  | settleBet (game_round_id : Nat) (win_amount : Int) (fresh_key : Nat)
  | deposit (amount : Int) (payment_ref fresh_key : Nat)
  | initiateWithdrawal (amount : Int) (fresh_ref now : Nat)
deriving DecidableEq, Repr

/-- Apply one operation; on an exception, `transaction.atomic()` rolls the
state back unchanged. -/
def applyOp (st : WalletState) (op : Op) : WalletState :=
  match op with
  | Op.placeBet a rid k now la =>
      match place_bet st a rid k now la with
      | Except.ok (_, st') => st'
      | Except.error _ => st
  | Op.settleBet rid win fk =>
      match settle_bet st rid win fk with
      | Except.ok (_, st') => st'
      | Except.error _ => st
  | Op.deposit a pref fk => (deposit st a pref fk).2
  | Op.initiateWithdrawal a fref now =>
      match initiate_withdrawal st a fref now with
      | Except.ok (_, st') => st'
      | Except.error _ => st

/-- Run a sequence of operations. -/
def run (ops : List Op) (st : WalletState) : WalletState :=
  ops.foldl applyOp st

/-- The lazily-created wallet starts at zero balance
(`Wallet.objects.get_or_create`, field defaults). -/
def initState : WalletState :=
  { wallet := { balance := 0, locked_balance := 0, version := 0 }
    transactions := []
    locks := []
    cache := [] }

/-- Sum of the `amount` fields of a list of ledger rows (the spec's fold
with + over a wallet's transactions). -/
def txnSum (ts : List WalletTransaction) : Int :=
  (ts.map (fun t => t.amount)).sum

/-- Sum of the `amount` fields of a list of reservation rows. -/
def lockSum (ls : List WalletLock) : Int :=
  (ls.map (fun l => l.amount)).sum

theorem cacheGet_cacheSet_self (c : List (Nat × WalletTransaction)) (k : Nat)
    (v : WalletTransaction) : cacheGet (cacheSet c k v) k = some v := by
  simp [cacheGet, cacheSet]

theorem cacheGet_cacheSet_ne (c : List (Nat × WalletTransaction))
    (k k' : Nat) (v : WalletTransaction) (h : k' ≠ k) :
    cacheGet (cacheSet c k v) k' = cacheGet c k' := by
  simp [cacheGet, cacheSet, List.find?_cons, Ne.symm h]

theorem findTxn_append_none (ts : List WalletTransaction)
    (t : WalletTransaction) (k : Nat) (h : findTxn ts k = none)
    (hne : t.idempotency_key ≠ k) : findTxn (ts ++ [t]) k = none := by
  simp only [findTxn, List.find?_eq_none] at *
  intro x hx
  rcases List.mem_append.mp hx with hx | hx
  · exact h x hx
  · rcases List.mem_singleton.mp hx with rfl
    simpa using hne

theorem txnSum_append (ts : List WalletTransaction) (t : WalletTransaction) :
    txnSum (ts ++ [t]) = txnSum ts + t.amount := by
  simp [txnSum]

theorem lockSum_append (ls : List WalletLock) (l : WalletLock) :
    lockSum (ls ++ [l]) = lockSum ls + l.amount := by
  simp [lockSum]

theorem lockSum_nonneg (ls : List WalletLock)
    (h : ∀ l ∈ ls, 0 < l.amount) : 0 ≤ lockSum ls := by
  induction ls with
  | nil => simp [lockSum]
  | cons x xs ih =>
      have hx := h x (List.mem_cons_self x xs)
      have hxs := ih (fun l hl => h l (List.mem_cons_of_mem x hl))
      simp only [lockSum, List.map_cons, List.sum_cons] at *
      omega

theorem lockSum_filter_split (p : WalletLock → Bool) (ls : List WalletLock) :
    lockSum ls = lockSum (ls.filter p) +
      lockSum (ls.filter (fun l => !(p l))) := by
  induction ls with
  | nil => simp [lockSum]
  | cons x xs ih =>
      by_cases h : p x = true <;>
        simp only [lockSum, List.filter_cons, h, List.map_cons, List.sum_cons,
          Bool.not_true, Bool.not_false, if_true, if_false,
          Bool.false_eq_true, Bool.true_eq_false] at * <;>
        omega

theorem filter_filter_not (p : WalletLock → Bool) (ls : List WalletLock) :
    (ls.filter (fun l => !(p l))).filter p = [] := by
  induction ls with
  | nil => rfl
  | cons x xs ih =>
      by_cases h : p x = true <;> simp [List.filter_cons, h, ih]

/-- Case analysis of a successful `place_bet`: either an idempotent replay
(wallet, ledger and reservations untouched) or a fresh debit with the exact
post-state written by the source. -/
theorem place_bet_ok_cases (st : WalletState) (a : Int) (rid k now : Nat)
    (la : Bool) (t : WalletTransaction) (st' : WalletState)
    (h : place_bet st a rid k now la = Except.ok (t, st')) :
    (st'.wallet = st.wallet ∧ st'.transactions = st.transactions ∧
      st'.locks = st.locks) ∨
    (a ≤ st.wallet.balance - st.wallet.locked_balance ∧
      st'.wallet = { balance := st.wallet.balance - a
                     locked_balance := st.wallet.locked_balance + a
                     version := st.wallet.version + 1 } ∧
      t.amount = -a ∧ t.idempotency_key = k ∧
      st'.transactions = st.transactions ++ [t] ∧
      st'.locks = st.locks ++
        [{ amount := a, lock_type := LockType.BET_PENDING,
           reference_id := rid, expires_at := now + 300 }]) := by
  unfold place_bet at h
  split at h
  · cases h
    exact Or.inl ⟨rfl, rfl, rfl⟩
  · split at h
    · cases h
      exact Or.inl ⟨rfl, rfl, rfl⟩
    · simp only at h
      split at h
      · cases h
      · cases h
        rename_i hlt
        exact Or.inr ⟨by omega, rfl, rfl, rfl, rfl, rfl⟩

/-- Case analysis of a successful `settle_bet`: exactly one BET_PENDING
reservation matched, it is deleted and released from `locked_balance`, and
the balance is credited (with a WIN ledger row) exactly when the win amount
is positive. -/
theorem settle_bet_ok_cases (st : WalletState) (rid : Nat) (win : Int)
    (fk : Nat) (w : Wallet) (st' : WalletState)
    (h : settle_bet st rid win fk = Except.ok (w, st')) :
    ∃ lk, betPendingLocks st.locks rid = [lk] ∧
      st'.locks = st.locks.filter (fun l => !(isBetPendingFor rid l)) ∧
      st'.wallet.locked_balance = st.wallet.locked_balance - lk.amount ∧
      ((0 < win ∧ st'.wallet.balance = st.wallet.balance + win ∧
         ∃ t, t.amount = win ∧
           st'.transactions = st.transactions ++ [t]) ∨
       (¬ 0 < win ∧ st'.wallet.balance = st.wallet.balance ∧
         st'.transactions = st.transactions)) := by
  unfold settle_bet at h
  split at h
  · cases h
  · rename_i lk heq
    simp only at h
    split at h
    · cases h
      rename_i hwin
      exact ⟨lk, heq, rfl, rfl, Or.inl ⟨hwin, rfl, _, rfl, rfl⟩⟩
    · cases h
      rename_i hwin
      exact ⟨lk, heq, rfl, rfl, Or.inr ⟨hwin, rfl, rfl⟩⟩
  · cases h

/-- Case analysis of a successful `initiate_withdrawal`. -/
theorem initiate_withdrawal_ok_cases (st : WalletState) (a : Int)
    (fref now : Nat) (lk : WalletLock) (st' : WalletState)
    (h : initiate_withdrawal st a fref now = Except.ok (lk, st')) :
    a ≤ st.wallet.balance - st.wallet.locked_balance ∧
      st'.wallet = { balance := st.wallet.balance
                     locked_balance := st.wallet.locked_balance + a
                     version := st.wallet.version + 1 } ∧
      st'.transactions = st.transactions ∧
      st'.locks = st.locks ++
        [{ amount := a, lock_type := LockType.WITHDRAWAL_PENDING,
           reference_id := fref, expires_at := now + 86400 }] := by
  unfold initiate_withdrawal at h
  simp only at h
  split at h
  · cases h
  · cases h
    rename_i hlt
    exact ⟨by omega, rfl, rfl, rfl⟩

/-- One step preserves the ledger-conservation equation
`balance = txnSum transactions`. -/
theorem applyOp_balance_txnSum (st : WalletState) (op : Op)
    (h : st.wallet.balance = txnSum st.transactions) :
    (applyOp st op).wallet.balance = txnSum (applyOp st op).transactions := by
  cases op with
  | placeBet a rid k now la =>
      simp only [applyOp]
      split
      · rename_i t st' heq
        rcases place_bet_ok_cases st a rid k now la t st' heq with
          ⟨hw, ht, _⟩ | ⟨_, hw, hta, _, ht, _⟩
        · rw [hw, ht]; exact h
        · rw [hw, ht, txnSum_append, hta]
          simp only
          omega
      · exact h
  | settleBet rid win fk =>
      simp only [applyOp]
      split
      · rename_i w st' heq
        rcases settle_bet_ok_cases st rid win fk w st' heq with
          ⟨lk, _, _, _, ⟨_, hb, t, hta, ht⟩ | ⟨_, hb, ht⟩⟩
        · rw [hb, ht, txnSum_append, hta]; omega
        · rw [hb, ht]; exact h
      · exact h
  | deposit a pref fk =>
      simp only [applyOp, deposit, txnSum_append]
      omega
  | initiateWithdrawal a fref now =>
      simp only [applyOp]
      split
      · rename_i lk st' heq
        rcases initiate_withdrawal_ok_cases st a fref now lk st' heq with
          ⟨_, hw, ht, _⟩
        rw [hw, ht]
        exact h
      · exact h

/-- One step preserves the reservation-conservation equation
`locked_balance = lockSum locks`. -/
theorem applyOp_locked_lockSum (st : WalletState) (op : Op)
    (h : st.wallet.locked_balance = lockSum st.locks) :
    (applyOp st op).wallet.locked_balance =
      lockSum (applyOp st op).locks := by
  cases op with
  | placeBet a rid k now la =>
      simp only [applyOp]
      split
      · rename_i t st' heq
        rcases place_bet_ok_cases st a rid k now la t st' heq with
          ⟨hw, _, hl⟩ | ⟨_, hw, _, _, _, hl⟩
        · rw [hw, hl]; exact h
        · rw [hw, hl, lockSum_append]
          simp only
          omega
      · exact h
  | settleBet rid win fk =>
      simp only [applyOp]
      split
      · rename_i w st' heq
        rcases settle_bet_ok_cases st rid win fk w st' heq with
          ⟨lk, hone, hl, hlb, _⟩
        have hsplit := lockSum_filter_split (isBetPendingFor rid) st.locks
        have hmatched : lockSum (st.locks.filter (isBetPendingFor rid)) =
            lk.amount := by
          rw [show st.locks.filter (isBetPendingFor rid) = [lk] from hone]
          simp [lockSum]
        rw [hlb, hl]
        omega
      · exact h
  | deposit a pref fk =>
      simpa only [applyOp, deposit] using h
  | initiateWithdrawal a fref now =>
      simp only [applyOp]
      split
      · rename_i lk st' heq
        rcases initiate_withdrawal_ok_cases st a fref now lk st' heq with
          ⟨_, hw, _, hl⟩
        rw [hw, hl, lockSum_append]
        simp only
        omega
      · exact h

/-- Does the operation carry a positive amount?  (`settle_bet` carries a win
amount of either sign; the source only credits positive wins, so no
restriction is needed there.) -/
def posOp : Op → Bool
  | Op.placeBet a _ _ _ _ => 0 < a
  | Op.settleBet _ _ _ => true
  | Op.deposit a _ _ => 0 < a
  | Op.initiateWithdrawal a _ _ => 0 < a

/-- The strengthened reachability invariant used for the nonnegativity
results: nonnegative balance, reservation conservation, and positivity of
every reservation amount. -/
def GoodState (st : WalletState) : Prop :=
  0 ≤ st.wallet.balance ∧
  st.wallet.locked_balance = lockSum st.locks ∧
  ∀ l ∈ st.locks, 0 < l.amount

/-- One step with a positive amount preserves `GoodState`. -/
theorem applyOp_goodState (st : WalletState) (op : Op)
    (hq : posOp op = true) (h : GoodState st) :
    GoodState (applyOp st op) := by
  obtain ⟨hb, hl, hpos⟩ := h
  have hlnn : 0 ≤ st.wallet.locked_balance := hl ▸ lockSum_nonneg _ hpos
  have hlock := applyOp_locked_lockSum st op hl
  cases op with
  | placeBet a rid k now la =>
      have ha : 0 < a := by simpa [posOp] using hq
      refine ⟨?_, hlock, ?_⟩ <;> simp only [applyOp]
      · split
        · rename_i t st' heq
          rcases place_bet_ok_cases st a rid k now la t st' heq with
            ⟨hw, _, _⟩ | ⟨hav, hw, _, _, _, _⟩
          · rw [hw]; exact hb
          · rw [hw]; simp only; omega
        · exact hb
      · split
        · rename_i t st' heq
          rcases place_bet_ok_cases st a rid k now la t st' heq with
            ⟨_, _, hlk⟩ | ⟨_, _, _, _, _, hlk⟩
          · rw [hlk]; exact hpos
          · rw [hlk]
            intro l hlmem
            rcases List.mem_append.mp hlmem with hm | hm
            · exact hpos l hm
            · rcases List.mem_singleton.mp hm with rfl
              simpa using ha
        · exact hpos
  | settleBet rid win fk =>
      refine ⟨?_, hlock, ?_⟩ <;> simp only [applyOp]
      · split
        · rename_i w st' heq
          rcases settle_bet_ok_cases st rid win fk w st' heq with
            ⟨lk, _, _, _, ⟨hwin, hbal, _, _, _⟩ | ⟨_, hbal, _⟩⟩
          · rw [hbal]; omega
          · rw [hbal]; exact hb
        · exact hb
      · split
        · rename_i w st' heq
          rcases settle_bet_ok_cases st rid win fk w st' heq with
            ⟨lk, _, hlk, _, _⟩
          rw [hlk]
          intro l hlmem
          exact hpos l (List.mem_of_mem_filter hlmem)
        · exact hpos
  | deposit a pref fk =>
      have ha : 0 < a := by simpa [posOp] using hq
      refine ⟨?_, hlock, ?_⟩ <;> simp only [applyOp, deposit]
      · omega
      · exact hpos
  | initiateWithdrawal a fref now =>
      have ha : 0 < a := by simpa [posOp] using hq
      refine ⟨?_, hlock, ?_⟩ <;> simp only [applyOp]
      · split
        · rename_i lk st' heq
          rcases initiate_withdrawal_ok_cases st a fref now lk st' heq with
            ⟨_, hw, _, _⟩
          rw [hw]
          exact hb
        · exact hb
      · split
        · rename_i lk st' heq
          rcases initiate_withdrawal_ok_cases st a fref now lk st' heq with
            ⟨_, _, _, hlk⟩
          rw [hlk]
          intro l hlmem
          rcases List.mem_append.mp hlmem with hm | hm
          · exact hpos l hm
          · rcases List.mem_singleton.mp hm with rfl
            simpa using ha
        · exact hpos

/-- Induction principle: a property preserved by every step (whose
operation satisfies `Q`) holds after running any `Q`-sequence. -/
theorem run_preserves (P : WalletState → Prop) (Q : Op → Prop)
    (hstep : ∀ st op, Q op → P st → P (applyOp st op)) :
    ∀ (ops : List Op) (st : WalletState),
      (∀ op ∈ ops, Q op) → P st → P (run ops st) := by
  intro ops
  induction ops with
  | nil => intro st _ h0; exact h0
  | cons o rest ih =>
      intro st hq h0
      exact ih (applyOp st o)
        (fun op hop => hq op (List.mem_cons_of_mem o hop))
        (hstep st o (hq o (List.mem_cons_self o rest)) h0)

/-- Spec-side notion of an "active" reservation (spec sections 3 and 8):
one that exists and has not yet expired.  The source never reads
`expires_at`, so this definition follows the spec's words and is compared
against the source's behaviour. -/
def spec_activeLocks (ls : List WalletLock) (now : Nat) : List WalletLock :=
  ls.filter (fun l => now ≤ l.expires_at)

/-- Spec-side lookup of an "active" BET_PENDING reservation for a round
(spec section 4.4, settleBet step 1). -/
def spec_activeBetPendingLocks (ls : List WalletLock) (rid now : Nat) :
    List WalletLock :=
  (betPendingLocks ls rid).filter (fun l => now ≤ l.expires_at)

/-- C2: starting from a zero-balance wallet, after any sequence of
placeBet, settleBet, deposit and initiateWithdrawal operations the wallet's
balance equals the fold with + of the amount fields over the full ordered
sequence of its transactions. -/
theorem balance_conservation (ops : List Op) :
    (run ops initState).wallet.balance =
      txnSum (run ops initState).transactions :=
  run_preserves (fun st => st.wallet.balance = txnSum st.transactions)
    (fun _ => True) (fun st op _ h => applyOp_balance_txnSum st op h)
    ops initState (fun _ _ => trivial) rfl

/-- C8 (amended): for every reachable state, `locked_balance` equals the
sum of the amount fields of all of the wallet's existing WalletLock
reservation rows — expiry is never consulted by the source. -/
theorem locked_balance_conservation (ops : List Op) :
    (run ops initState).wallet.locked_balance =
      lockSum (run ops initState).locks :=
  run_preserves (fun st => st.wallet.locked_balance = lockSum st.locks)
    (fun _ => True) (fun st op _ h => applyOp_locked_lockSum st op h)
    ops initState (fun _ _ => trivial) rfl

/-- C8 (counterexample): in the reachable state obtained by depositing 100
and placing a bet of 30 at time 0, once the reservation's 5-minute expiry
has passed (time 1000) the sum of the *unexpired* reservation amounts is 0
while `locked_balance` is still 30: the claim's "active (existing,
unexpired)" reading is false, because expiry never releases
`locked_balance` in the source. -/
theorem locked_vs_active_sum_counterexample :
    (run [Op.deposit 100 5 6, Op.placeBet 30 1 11 0 true]
        initState).wallet.locked_balance = 30 ∧
    lockSum (spec_activeLocks
        (run [Op.deposit 100 5 6, Op.placeBet 30 1 11 0 true]
          initState).locks 1000) = 0 := by
  decide

/-- C1 (counterexample): the state reached by `deposit 100` followed by a
successful `placeBet 100` (balance 100, locked 0, available 100 ≥ amount)
has balance 0 < locked_balance 100, refuting `balance ≥ locked_balance`
(and the claim's instance `b - amount ≥ l + amount`) on a reachable state. -/
theorem balance_ge_locked_counterexample :
    exOk (place_bet (run [Op.deposit 100 5 6] initState) 100 1 11 0 true)
        = true ∧
    (run [Op.deposit 100 5 6, Op.placeBet 100 1 11 0 true]
        initState).wallet.balance <
      (run [Op.deposit 100 5 6, Op.placeBet 100 1 11 0 true]
        initState).wallet.locked_balance := by
  decide

/-- C1 (amended): for every sequence of operations with positive amounts,
the reachable state has `balance ≥ 0` and `locked_balance ≥ 0`; the
claim's `balance ≥ locked_balance` (nonnegative available balance) part
does not hold, as the counterexample shows. -/
theorem nonneg_balances_of_pos_amounts (ops : List Op)
    (hpos : ∀ op ∈ ops, posOp op = true) :
    0 ≤ (run ops initState).wallet.balance ∧
    0 ≤ (run ops initState).wallet.locked_balance := by
  have hgood : GoodState (run ops initState) :=
    run_preserves GoodState (fun op => posOp op = true)
      applyOp_goodState ops initState hpos
      ⟨le_refl 0, rfl, fun l hl => absurd hl (List.not_mem_nil l)⟩
  obtain ⟨hb, hl, hp⟩ := hgood
  exact ⟨hb, hl ▸ lockSum_nonneg _ hp⟩

/-- C1 witness: the amended nonnegativity theorem applied to the concrete
positive-amount sequence deposit 100; placeBet 30. -/
theorem nonneg_balances_of_pos_amounts_witness :
    0 ≤ (run [Op.deposit 100 5 6, Op.placeBet 30 1 11 0 true]
        initState).wallet.balance ∧
    0 ≤ (run [Op.deposit 100 5 6, Op.placeBet 30 1 11 0 true]
        initState).wallet.locked_balance :=
  nonneg_balances_of_pos_amounts
    [Op.deposit 100 5 6, Op.placeBet 30 1 11 0 true] (by decide)

/-- The BET ledger row written by a fresh successful `place_bet`. -/
def betSuccessTxn (st : WalletState) (a : Int) (rid k : Nat) :
    WalletTransaction :=
  { type := TxnType.BET
    amount := -a
    balance_before := st.wallet.balance
    balance_after := st.wallet.balance - a
    reference_id := rid
    idempotency_key := k }

/-- The post-state of a fresh successful `place_bet`. -/
def betSuccessState (st : WalletState) (a : Int) (rid k now : Nat) :
    WalletState :=
  { wallet := { balance := st.wallet.balance - a
                locked_balance := st.wallet.locked_balance + a
                version := st.wallet.version + 1 }
    transactions := st.transactions ++ [betSuccessTxn st a rid k]
    locks := st.locks ++
      [{ amount := a, lock_type := LockType.BET_PENDING,
         reference_id := rid, expires_at := now + 300 }]
    cache := cacheSet st.cache k (betSuccessTxn st a rid k) }

/-- A fresh `place_bet` (key neither cached nor in the ledger) with
sufficient available balance returns exactly the debit state written by
the source. -/
theorem place_bet_fresh_eq (st : WalletState) (a : Int) (rid k now : Nat)
    (la : Bool) (hc : cacheGet st.cache k = none)
    (hf : findTxn st.transactions k = none)
    (hok : ¬ st.wallet.balance - st.wallet.locked_balance < a) :
    place_bet st a rid k now la =
      Except.ok (betSuccessTxn st a rid k, betSuccessState st a rid k now) := by
  simp [place_bet, hc, hf, hok, betSuccessTxn, betSuccessState]

/-- C3 (code-bug evidence): `DistributedLock.__enter__` discards the Bool
returned by `acquire`, so `place_bet` behaves identically whether or not
the distributed lock on `wallet:<user>` was acquired, and it never fails
with the spec's `LockTimeout`: the balance-mutating critical section runs
without holding the lock instead of failing. -/
theorem place_bet_ignores_distributed_lock (st : WalletState) (a : Int)
    (rid k now : Nat) :
    (∀ la la' : Bool,
      place_bet st a rid k now la = place_bet st a rid k now la') ∧
    ∀ la : Bool,
      place_bet st a rid k now la ≠ Except.error ServiceError.lockTimeout := by
  refine ⟨fun la la' => rfl, fun la => ?_⟩
  unfold place_bet
  split
  · intro h; cases h
  · split
    · intro h; cases h
    · simp only
      split
      · intro h
        injection h with h2
        cases h2
      · intro h; cases h

/-- The wallet of the C6 scenario: balance 100.00000000, nothing locked,
empty ledger. -/
def scenarioWallet : WalletState :=
  { wallet := { balance := 100, locked_balance := 0, version := 0 }
    transactions := []
    locks := []
    cache := [] }

/-- The scenario state after `placeBet(user, 30, roundA, key1)`. -/
def scenarioAfterBet : WalletState :=
  applyOp scenarioWallet (Op.placeBet 30 1 11 0 true)

/-- The scenario state after the subsequent `settleBet(roundA, 90)`. -/
def scenarioAfterSettle : WalletState :=
  applyOp scenarioAfterBet (Op.settleBet 1 90 99)

/-- C6: from balance 100 and locked 0, placeBet of 30 succeeds and yields
balance 70, locked 30 and exactly one BET transaction of amount -30; the
following settleBet with win 90 succeeds and yields locked 0, balance 160,
exactly one WIN transaction of amount +90, and the BET_PENDING reservation
for the round deleted. -/
theorem bet_settle_scenario :
    exOk (place_bet scenarioWallet 30 1 11 0 true) = true ∧
    scenarioAfterBet.wallet.balance = 70 ∧
    scenarioAfterBet.wallet.locked_balance = 30 ∧
    scenarioAfterBet.transactions.map (fun t => (t.type, t.amount)) =
      [(TxnType.BET, -30)] ∧
    exOk (settle_bet scenarioAfterBet 1 90 99) = true ∧
    scenarioAfterSettle.wallet.locked_balance = 0 ∧
    scenarioAfterSettle.wallet.balance = 160 ∧
    (scenarioAfterSettle.transactions.filter
        (fun t => t.type == TxnType.WIN)).map (fun t => t.amount) = [90] ∧
    betPendingLocks scenarioAfterSettle.locks 1 = [] := by
  decide

/-- C10: neither `place_bet` nor `initiate_withdrawal` validates that the
amount is positive: for every wallet with nonnegative available balance
and every negative amount, placeBet succeeds, increases the balance by
|amount| and decreases locked_balance by |amount| (below zero when it was
zero); initiate_withdrawal likewise accepts the negative amount. -/
theorem negative_amounts_accepted (st : WalletState) (a : Int)
    (rid k now fref wnow : Nat) (la : Bool)
    (hc : cacheGet st.cache k = none)
    (hf : findTxn st.transactions k = none)
    (hneg : a < 0)
    (hav : 0 ≤ st.wallet.balance - st.wallet.locked_balance) :
    exOk (place_bet st a rid k now la) = true ∧
    (applyOp st (Op.placeBet a rid k now la)).wallet.balance =
      st.wallet.balance - a ∧
    (applyOp st (Op.placeBet a rid k now la)).wallet.locked_balance =
      st.wallet.locked_balance + a ∧
    (st.wallet.locked_balance = 0 →
      (applyOp st (Op.placeBet a rid k now la)).wallet.locked_balance < 0) ∧
    exOk (initiate_withdrawal st a fref wnow) = true ∧
    (applyOp st (Op.initiateWithdrawal a fref wnow)).wallet.locked_balance =
      st.wallet.locked_balance + a := by
  have hok : ¬ st.wallet.balance - st.wallet.locked_balance < a := by omega
  have hbet := place_bet_fresh_eq st a rid k now la hc hf hok
  refine ⟨?_, ?_, ?_, ?_, ?_, ?_⟩
  · rw [hbet]; rfl
  · simp only [applyOp, hbet, betSuccessState]
  · simp only [applyOp, hbet, betSuccessState]
  · intro h0
    simp only [applyOp, hbet, betSuccessState]
    omega
  · simp [initiate_withdrawal, hok, exOk]
  · simp [applyOp, initiate_withdrawal, hok]

/-- C10 witness: the theorem applied to the zero wallet and amount -50:
the bet succeeds, balance becomes +50 and locked_balance -50. -/
theorem negative_amounts_accepted_witness :
    exOk (place_bet initState (-50) 1 11 0 true) = true ∧
    (applyOp initState (Op.placeBet (-50) 1 11 0 true)).wallet.balance =
      initState.wallet.balance - (-50) ∧
    (applyOp initState (Op.placeBet (-50) 1 11 0 true)).wallet.locked_balance =
      initState.wallet.locked_balance + (-50) ∧
    (initState.wallet.locked_balance = 0 →
      (applyOp initState
          (Op.placeBet (-50) 1 11 0 true)).wallet.locked_balance < 0) ∧
    exOk (initiate_withdrawal initState (-50) 2 0) = true ∧
    (applyOp initState
        (Op.initiateWithdrawal (-50) 2 0)).wallet.locked_balance =
      initState.wallet.locked_balance + (-50) :=
  negative_amounts_accepted initState (-50) 1 11 0 2 0 true rfl rfl
    (by decide) (by decide)

/-- A fresh `place_bet` with insufficient available balance raises
`InsufficientFundsException`. -/
theorem place_bet_fresh_insufficient (st : WalletState) (a : Int)
    (rid k now : Nat) (la : Bool) (hc : cacheGet st.cache k = none)
    (hf : findTxn st.transactions k = none)
    (hlt : st.wallet.balance - st.wallet.locked_balance < a) :
    place_bet st a rid k now la =
      Except.error ServiceError.insufficientFunds := by
  simp [place_bet, hc, hf, hlt]

/-- C4: for every wallet state in which the idempotency key is fresh, after
a first successful placeBet a second placeBet with the same key and
arguments returns the first call's transaction and leaves the state exactly
as after the first call; overall exactly one transaction is created and the
balance is debited exactly once. -/
theorem place_bet_idempotent (st : WalletState) (a : Int)
    (rid k now now2 : Nat) (la la2 : Bool)
    (t : WalletTransaction) (st1 : WalletState)
    (hc : cacheGet st.cache k = none)
    (hf : findTxn st.transactions k = none)
    (h1 : place_bet st a rid k now la = Except.ok (t, st1)) :
    place_bet st1 a rid k now2 la2 = Except.ok (t, st1) ∧
    st1.transactions = st.transactions ++ [t] ∧
    st1.wallet.balance = st.wallet.balance - a := by
  by_cases hlt : st.wallet.balance - st.wallet.locked_balance < a
  · rw [place_bet_fresh_insufficient st a rid k now la hc hf hlt] at h1
    cases h1
  · have hbet := place_bet_fresh_eq st a rid k now la hc hf hlt
    have heq := hbet.symm.trans h1
    rw [Except.ok.injEq, Prod.mk.injEq] at heq
    obtain ⟨ht, hst⟩ := heq
    subst ht
    subst hst
    refine ⟨?_, ?_, ?_⟩
    · simp [place_bet, betSuccessState, cacheGet_cacheSet_self]
    · simp [betSuccessState]
    · simp [betSuccessState]

/-- C4 witness: the idempotency theorem applied to the concrete wallet with
balance 100, bet 30 with key 11, retried. -/
theorem place_bet_idempotent_witness :
    place_bet (betSuccessState scenarioWallet 30 1 11 0) 30 1 11 7 false =
      Except.ok (betSuccessTxn scenarioWallet 30 1 11,
        betSuccessState scenarioWallet 30 1 11 0) ∧
    (betSuccessState scenarioWallet 30 1 11 0).transactions =
      scenarioWallet.transactions ++ [betSuccessTxn scenarioWallet 30 1 11] ∧
    (betSuccessState scenarioWallet 30 1 11 0).wallet.balance =
      scenarioWallet.wallet.balance - 30 :=
  place_bet_idempotent scenarioWallet 30 1 11 0 7 true false
    (betSuccessTxn scenarioWallet 30 1 11)
    (betSuccessState scenarioWallet 30 1 11 0) rfl rfl
    (place_bet_fresh_eq scenarioWallet 30 1 11 0 true rfl rfl (by decide))

/-- C5: with a fresh idempotency key, placeBet fails exactly when the
available balance `balance - locked_balance` is strictly below the amount,
and that failure is `InsufficientFundsException` with the state rolled back
unchanged (no transaction, no reservation); initiate_withdrawal behaves the
same way. -/
theorem insufficient_funds_exact (st : WalletState) (a : Int)
    (rid k now fref wnow : Nat) (la : Bool)
    (hc : cacheGet st.cache k = none)
    (hf : findTxn st.transactions k = none) :
    (exOk (place_bet st a rid k now la) = false ↔
      st.wallet.balance - st.wallet.locked_balance < a) ∧
    (st.wallet.balance - st.wallet.locked_balance < a →
      place_bet st a rid k now la =
        Except.error ServiceError.insufficientFunds ∧
      applyOp st (Op.placeBet a rid k now la) = st) ∧
    (exOk (initiate_withdrawal st a fref wnow) = false ↔
      st.wallet.balance - st.wallet.locked_balance < a) ∧
    (st.wallet.balance - st.wallet.locked_balance < a →
      initiate_withdrawal st a fref wnow =
        Except.error ServiceError.insufficientFunds ∧
      applyOp st (Op.initiateWithdrawal a fref wnow) = st) := by
  by_cases hlt : st.wallet.balance - st.wallet.locked_balance < a
  · have hbet := place_bet_fresh_insufficient st a rid k now la hc hf hlt
    refine ⟨?_, fun _ => ⟨hbet, ?_⟩, ?_, fun _ => ⟨?_, ?_⟩⟩
    · rw [hbet]; simpa [exOk] using hlt
    · simp [applyOp, hbet]
    · simp [initiate_withdrawal, hlt, exOk]
    · simp [initiate_withdrawal, hlt]
    · simp [applyOp, initiate_withdrawal, hlt]
  · have hbet := place_bet_fresh_eq st a rid k now la hc hf hlt
    refine ⟨?_, fun h => absurd h hlt, ?_, fun h => absurd h hlt⟩
    · rw [hbet]; simpa [exOk] using hlt
    · simp [initiate_withdrawal, hlt, exOk]

/-- C5 witness: on the wallet with balance 100 and locked 0 (available
100), a bet and a withdrawal of 200 both fail with InsufficientFunds and
leave the state unchanged. -/
theorem insufficient_funds_exact_witness :
    (exOk (place_bet scenarioWallet 200 2 12 0 true) = false ↔
      scenarioWallet.wallet.balance -
        scenarioWallet.wallet.locked_balance < 200) ∧
    (scenarioWallet.wallet.balance -
        scenarioWallet.wallet.locked_balance < 200 →
      place_bet scenarioWallet 200 2 12 0 true =
        Except.error ServiceError.insufficientFunds ∧
      applyOp scenarioWallet (Op.placeBet 200 2 12 0 true) =
        scenarioWallet) ∧
    (exOk (initiate_withdrawal scenarioWallet 200 3 0) = false ↔
      scenarioWallet.wallet.balance -
        scenarioWallet.wallet.locked_balance < 200) ∧
    (scenarioWallet.wallet.balance -
        scenarioWallet.wallet.locked_balance < 200 →
      initiate_withdrawal scenarioWallet 200 3 0 =
        Except.error ServiceError.insufficientFunds ∧
      applyOp scenarioWallet (Op.initiateWithdrawal 200 3 0) =
        scenarioWallet) :=
  insufficient_funds_exact scenarioWallet 200 2 12 0 3 0 true rfl rfl

/-- C7 (counterexample): in the reachable state holding a reservation for
round 1 created at time 0 (expiry 300), at time 1000 no unexpired
BET_PENDING reservation exists, yet settleBet succeeds instead of failing
with ReservationNotFound: the source never consults `expires_at`. -/
theorem settle_expired_reservation_counterexample :
    spec_activeBetPendingLocks
      (run [Op.deposit 100 5 6, Op.placeBet 30 1 11 0 true] initState).locks
      1 1000 = [] ∧
    exOk (settle_bet
      (run [Op.deposit 100 5 6, Op.placeBet 30 1 11 0 true] initState)
      1 90 99) = true := by
  decide

/-- C7 (amended): settleBet fails (with the Django DoesNotExist raised by
the reservation lookup) precisely in the absence of an *existing*
BET_PENDING reservation row for the round, regardless of expiry, and the
state is rolled back unchanged on that failure; after a successful
settlement the reservation is deleted, so a second settleBet for the same
round fails this way rather than crediting twice. -/
theorem settle_bet_reservation_not_found (st : WalletState) (rid : Nat)
    (win win2 : Int) (fk fk2 : Nat) :
    (betPendingLocks st.locks rid = [] →
      settle_bet st rid win fk = Except.error ServiceError.doesNotExist ∧
      applyOp st (Op.settleBet rid win fk) = st) ∧
    (∀ w st', settle_bet st rid win fk = Except.ok (w, st') →
      settle_bet st' rid win2 fk2 =
        Except.error ServiceError.doesNotExist) := by
  constructor
  · intro hnone
    constructor
    · simp [settle_bet, hnone]
    · simp [applyOp, settle_bet, hnone]
  · intro w st' h
    rcases settle_bet_ok_cases st rid win fk w st' h with
      ⟨lk, hone, hlocks, _, _⟩
    have hempty : betPendingLocks st'.locks rid = [] := by
      rw [hlocks]
      simp only [betPendingLocks]
      exact filter_filter_not (isBetPendingFor rid) st.locks
    simp [settle_bet, hempty]

/-- C7 witness: on the empty wallet settleBet fails with DoesNotExist and
changes nothing; after the concrete successful settlement of round 1, a
second settleBet of round 1 fails the same way. -/
theorem settle_bet_reservation_not_found_witness :
    (settle_bet initState 1 90 99 = Except.error ServiceError.doesNotExist ∧
      applyOp initState (Op.settleBet 1 90 99) = initState) ∧
    settle_bet scenarioAfterSettle 1 90 98 =
      Except.error ServiceError.doesNotExist :=
  ⟨(settle_bet_reservation_not_found initState 1 90 90 99 98).1 rfl,
   (settle_bet_reservation_not_found scenarioAfterBet 1 90 90 99 98).2
     scenarioAfterSettle.wallet scenarioAfterSettle rfl⟩

/-- Two placeBet calls for the same user's wallet, embedding the
serialisation enforced by the database: each call's critical section runs
inside `transaction.atomic()` holding the `select_for_update` row lock on
the wallet, so the second call's read of the balance happens after the
first call's commit.  The Bool chooses which call commits first; the pair
returns the outcomes in call order (call 1, call 2). -/
def twoBets (st : WalletState) (a1 a2 : Int) (r1 r2 k1 k2 now : Nat) :
    Bool →
      Except ServiceError (WalletTransaction × WalletState) ×
        Except ServiceError (WalletTransaction × WalletState)
  | true =>
      (place_bet st a1 r1 k1 now true,
       place_bet (applyOp st (Op.placeBet a1 r1 k1 now true))
         a2 r2 k2 now true)
  | false =>
      (place_bet (applyOp st (Op.placeBet a2 r2 k2 now true))
         a1 r1 k1 now true,
       place_bet st a2 r2 k2 now true)

/-- C9 (counterexample): on the zero wallet the full available balance is
0, and two concurrent placeBet calls each for that full available balance
(distinct fresh keys) BOTH succeed — the claim's "never both succeed" fails
when the available balance is zero (no positivity check exists). -/
theorem concurrent_full_balance_counterexample :
    initState.wallet.balance - initState.wallet.locked_balance = 0 ∧
    exOk (twoBets initState 0 0 1 2 11 12 0 true).1 = true ∧
    exOk (twoBets initState 0 0 1 2 11 12 0 true).2 = true := by
  decide

/-- C9 (amended): when the available balance is positive and two serialised
placeBet calls with distinct fresh idempotency keys each request the full
available balance, then in either commit order exactly the first-committing
call succeeds and the other fails with InsufficientFunds. -/
theorem concurrent_full_balance_exclusive (st : WalletState) (a : Int)
    (r1 r2 k1 k2 now : Nat)
    (hk : k1 ≠ k2)
    (hc1 : cacheGet st.cache k1 = none)
    (hf1 : findTxn st.transactions k1 = none)
    (hc2 : cacheGet st.cache k2 = none)
    (hf2 : findTxn st.transactions k2 = none)
    (ha : a = st.wallet.balance - st.wallet.locked_balance)
    (hpos : 0 < a) :
    exOk (twoBets st a a r1 r2 k1 k2 now true).1 = true ∧
    (twoBets st a a r1 r2 k1 k2 now true).2 =
      Except.error ServiceError.insufficientFunds ∧
    exOk (twoBets st a a r1 r2 k1 k2 now false).2 = true ∧
    (twoBets st a a r1 r2 k1 k2 now false).1 =
      Except.error ServiceError.insufficientFunds := by
  have hok : ¬ st.wallet.balance - st.wallet.locked_balance < a := by omega
  have h1 := place_bet_fresh_eq st a r1 k1 now true hc1 hf1 hok
  have h2 := place_bet_fresh_eq st a r2 k2 now true hc2 hf2 hok
  have hmid1 : applyOp st (Op.placeBet a r1 k1 now true) =
      betSuccessState st a r1 k1 now := by
    simp [applyOp, h1]
  have hmid2 : applyOp st (Op.placeBet a r2 k2 now true) =
      betSuccessState st a r2 k2 now := by
    simp [applyOp, h2]
  have hcA : cacheGet (betSuccessState st a r1 k1 now).cache k2 = none := by
    simp only [betSuccessState]
    rw [cacheGet_cacheSet_ne _ _ _ _ (Ne.symm hk)]
    exact hc2
  have hfA : findTxn (betSuccessState st a r1 k1 now).transactions k2 =
      none := by
    simp only [betSuccessState]
    exact findTxn_append_none _ _ _ hf2 (by simpa [betSuccessTxn] using hk)
  have hltA : (betSuccessState st a r1 k1 now).wallet.balance -
      (betSuccessState st a r1 k1 now).wallet.locked_balance < a := by
    simp only [betSuccessState]
    omega
  have hcB : cacheGet (betSuccessState st a r2 k2 now).cache k1 = none := by
    simp only [betSuccessState]
    rw [cacheGet_cacheSet_ne _ _ _ _ hk]
    exact hc1
  have hfB : findTxn (betSuccessState st a r2 k2 now).transactions k1 =
      none := by
    simp only [betSuccessState]
    exact findTxn_append_none _ _ _ hf1
      (by simpa [betSuccessTxn] using Ne.symm hk)
  have hltB : (betSuccessState st a r2 k2 now).wallet.balance -
      (betSuccessState st a r2 k2 now).wallet.locked_balance < a := by
    simp only [betSuccessState]
    omega
  refine ⟨?_, ?_, ?_, ?_⟩
  · simp only [twoBets]
    rw [h1]
    rfl
  · simp only [twoBets, hmid1]
    exact place_bet_fresh_insufficient _ a r2 k2 now true hcA hfA hltA
  · simp only [twoBets]
    rw [h2]
    rfl
  · simp only [twoBets, hmid2]
    exact place_bet_fresh_insufficient _ a r1 k1 now true hcB hfB hltB

/-- C9 witness: the exclusivity theorem applied to the wallet with balance
100, locked 0 (available 100), both calls betting 100 with distinct fresh
keys 21 and 22. -/
theorem concurrent_full_balance_exclusive_witness :
    exOk (twoBets scenarioWallet 100 100 1 2 21 22 0 true).1 = true ∧
    (twoBets scenarioWallet 100 100 1 2 21 22 0 true).2 =
      Except.error ServiceError.insufficientFunds ∧
    exOk (twoBets scenarioWallet 100 100 1 2 21 22 0 false).2 = true ∧
    (twoBets scenarioWallet 100 100 1 2 21 22 0 false).1 =
      Except.error ServiceError.insufficientFunds :=
  concurrent_full_balance_exclusive scenarioWallet 100 1 2 21 22 0
    (by decide) rfl rfl rfl rfl (by decide) (by decide)

end Casino
